import Mathlib

/-!
Shallow embedding of the `CustomOCR_DocumentLoader` Flowise node
(`CustomOcr.ts`): upload-source resolution, remote-OCR vs local PDF
extraction routing, OCR-response normalization, metadata overlay and
output shaping.  Machine-level collaborators (file storage, the HTTP
transport, the local PDF engine, the text splitter, `JSON.parse` on
bracketed lists, `Buffer.from(-, 'base64')` and `handleEscapeCharacters`)
are passed in explicitly as functions.
-/

namespace CustomOcr

/-- ASCII lower-casing of one character, as JS `toLowerCase` acts on the
ASCII range. -/
def charToLower (c : Char) : Char :=
  if 'A' ≤ c ∧ c ≤ 'Z' then Char.ofNat (c.toNat + 32) else c

/-- JS `s.split(sep)` for a single-character separator (the only kind the
loader uses: `','`, `':'`, `'\n'`): split at every occurrence, keeping
empty segments, `[""]` on the empty string. -/
def jsSplit (sep : Char) (s : String) : List String :=
  (s.data.splitOn sep).map (fun cs => ⟨cs⟩)

/-- JS `s.startsWith(p)`. -/
def startsWithStr (s p : String) : Bool := List.isPrefixOf p.data s.data

/-- JS `s.endsWith(p)`. -/
def endsWithStr (s p : String) : Bool := List.isSuffixOf p.data s.data

/-- `filename.toLowerCase().endsWith('.pdf')`. -/
def isPdfFilename (filename : String) : Bool :=
  endsWithStr ⟨filename.data.map charToLower⟩ ".pdf"

/-- A `{from, to}` line range as produced by the normalizer
(`{ from: 1, to: lineCount }`).  `from` is a Lean keyword, hence the
field names `lfrom`/`lto`. -/
structure LinesRange where
  lfrom : Nat
  lto : Nat
deriving DecidableEq, Repr

/-- Metadata values: JS primitives plus the two composite shapes the
loader stores in metadata (a `lines` range and a `loc` object whose
optional `lines` field can hold any value the API supplied; a `loc`
without a `lines` field and one with it are separate constructors so the
type is not a nested inductive). -/
inductive MVal where
  | str (s : String)
  | bool (b : Bool)
  | num (n : Int)
  | lines (r : LinesRange)
  | locNoLines (pageNumber : Nat)
  | locWithLines (pageNumber : Nat) (lines : MVal)
deriving DecidableEq, Repr

/-- A `loc` object `{ pageNumber, lines? }` with an optional `lines`
field. -/
def MVal.mkLoc (pageNumber : Nat) : Option MVal → MVal
  | none => .locNoLines pageNumber
  | some v => .locWithLines pageNumber v

/-- A JS object used as metadata: ordered key/value pairs.  Objects built
by the loader always have distinct keys. -/
abbrev Metadata := List (String × MVal)

/-- JS property read `m[k]`: first binding for the key, if any. -/
def getKey : Metadata → String → Option MVal
  | [], _ => none
  | (k1, v1) :: rest, k => if k1 = k then some v1 else getKey rest k

/-- JS property write `m[k] = v`: overwrite in place if the key exists,
else append (insertion-order semantics of JS objects). -/
def setKey : Metadata → String → MVal → Metadata
  | [], k, v => [(k, v)]
  | (k1, v1) :: rest, k, v => if k1 = k then (k, v) :: rest else (k1, v1) :: setKey rest k v

/-- `Object.assign(target, src)` / object-spread `{...target, ...src}`:
write every binding of `src` onto `target` in order. -/
def assign (target : Metadata) : Metadata → Metadata
  | [] => target
  | (k, v) :: rest => assign (setKey target k v) rest

/-- The keys of a metadata object are pairwise distinct (always true of
real JS objects). -/
def keysNodup (m : Metadata) : Prop := (m.map Prod.fst).Nodup

instance (m : Metadata) : Decidable (keysNodup m) := by
  unfold keysNodup; infer_instance

/-- JS truthiness for the metadata values we model: empty string, `false`
and `0` are falsy; objects (ranges, loc) are always truthy. -/
def truthy : MVal → Bool
  | .str s => !(s == "")
  | .bool b => b
  | .num n => !(n == 0)
  | .lines _ => true
  | .locNoLines _ => true
  | .locWithLines _ _ => true

/-- Truthiness of a possibly-absent value (`undefined` is falsy). -/
def jsTruthyOpt : Option MVal → Bool
  | none => false
  | some v => truthy v

/-- Truthiness of a possibly-absent string (`undefined` and `''` falsy). -/
def jsTruthyStr : Option String → Bool
  | none => false
  | some s => !(s == "")

/-- One element of the remote-OCR JSON response array: either a plain
string, or an object carrying optional `pageContent`/`text`/`content`
string fields, an optional object-level `metadata`, and an optional
`lines` value. -/
inductive OcrEntry where
  | str (s : String)
  | obj (pageContent text content : Option String) (metadata : Option Metadata)
        (lines : Option MVal)
deriving DecidableEq, Repr

/-- `item.metadata` (undefined on plain strings). -/
def entryMetaOf : OcrEntry → Option Metadata
  | .str _ => none
  | .obj _ _ _ md _ => md

/-- `item.lines` (undefined on plain strings). -/
def entryLinesOf : OcrEntry → Option MVal
  | .str _ => none
  | .obj _ _ _ _ ln => ln

/-- Text of one response entry:
`typeof item === 'string' ? item : item.pageContent || item.text || item.content || ''`
(JS `||` takes the first truthy operand, so a present-but-empty field is
skipped). -/
def extractText : OcrEntry → String
  | .str s => s
  | .obj pc t c _ _ =>
    if jsTruthyStr pc then pc.getD ""
    else if jsTruthyStr t then t.getD ""
    else if jsTruthyStr c then c.getD ""
    else ""

/-- `pageContent.split('\n').length`. -/
def lineCountOf (s : String) : Nat := (jsSplit '\n' s).length

/-- One extracted document: `new Document({ pageContent, metadata })`. -/
structure Document where
  pageContent : String
  metadata : Metadata
deriving DecidableEq, Repr

/-- The base metadata the normalizer starts from:
`{ source: filename, custom_ocr: true }`. -/
def baseMetadata (filename : String) : Metadata :=
  [("source", .str filename), ("custom_ocr", .bool true)]

/-- The `metadata.loc.lines` value chosen in `perPage` mode, mirroring the
source's cascade:
`if (item.lines) ... else if (item.metadata?.lines) ... else if (pageContent) {from:1,to:lineCount}`;
when all three tests fail no `lines` field is written. -/
def locLinesOf (item : OcrEntry) (pageContent : String) : Option MVal :=
  if jsTruthyOpt (entryLinesOf item) then entryLinesOf item
  else if jsTruthyOpt ((entryMetaOf item).bind (fun m => getKey m "lines")) then
    (entryMetaOf item).bind (fun m => getKey m "lines")
  else if pageContent = "" then none
  else some (.lines ⟨1, lineCountOf pageContent⟩)

/-- The document built for one entry in `perPage` mode
(`result.forEach((item, index) => ...)` body). -/
def perPageDocOf (filename : String) (isPdf : Bool) (index : Nat) (item : OcrEntry) :
    Document :=
  let pageContent := extractText item
  let md0 := baseMetadata filename
  let md1 := match entryMetaOf item with
    | some m => assign md0 m
    | none => md0
  let md2 := if isPdf then
      setKey md1 "loc" (MVal.mkLoc (index + 1) (locLinesOf item pageContent))
    else md1
  ⟨pageContent, md2⟩

/-- `extractDocsFromCustomApi(result, filename)`: normalize the remote-OCR
response array into documents, per the instance's `usage` mode. -/
def extractDocsFromCustomApi (usage : Option String) (result : List OcrEntry)
    (filename : String) : List Document :=
  let isPdf := isPdfFilename filename
  if usage = some "perFile" then
    let pageContent := String.intercalate "\n\n" (result.enum.map (fun p =>
      if p.1 = 0 then extractText p.2
      else "<PAGE_BREAK>" ++ toString (p.1 + 1) ++ "</PAGE_BREAK>\n\n" ++ extractText p.2))
    let metadata :=
      match result.head? with
      | some item =>
        match entryMetaOf item with
        | some m => assign (baseMetadata filename) m
        | none => baseMetadata filename
      | none => baseMetadata filename
    [⟨pageContent, metadata⟩]
  else
    result.enum.map (fun p => perPageDocOf filename isPdf p.1 p.2)

/-- Raw file bytes (a Node `Buffer`). -/
abbrev Bytes := List Nat

/-- A parsed JSON response body (`await response.json()`): the loader only
distinguishes arrays (whose elements it consumes as `OcrEntry`) from every
other JSON shape. -/
inductive JsonValue where
  | jarr (entries : List OcrEntry)
  | jobj (m : Metadata)
  | jstr (s : String)
  | jnum (n : Int)
  | jbool (b : Bool)
  | jnull
deriving DecidableEq, Repr

/-- The outcome of the `fetch` POST to the OCR endpoint: HTTP status
information, the body as text (read on failure) and as parsed JSON. -/
structure HttpResponse where
  ok : Bool
  status : Nat
  bodyText : String
  json : JsonValue
deriving DecidableEq, Repr

/-- The failure taxonomy of the loader, tagged by throw site:
`inputError` is `throw new Error('File upload is required')`;
`remoteOcrError` is the wrapper thrown by `postFilesToCustomApi`'s catch
block, carrying the full message. -/
inductive LoaderError where
  | inputError
  | remoteOcrError (msg : String)
deriving DecidableEq, Repr

/-- The body of `postFilesToCustomApi`'s try block, given the transport's
response: non-success status and non-array JSON bodies throw; an array
body is normalized.  (Building the multipart form, the `Authorization`
and base64 `X-Filename` headers, and the fetch itself live in the
`fetchOcr` collaborator.) -/
def postFilesAttempt (usage : Option String) (resp : HttpResponse) (filename : String) :
    Except String (List Document) :=
  if resp.ok = false then
    .error ("Custom OCR API request failed with status " ++ toString resp.status ++ ": "
      ++ resp.bodyText)
  else
    match resp.json with
    | .jarr result => .ok (extractDocsFromCustomApi usage result filename)
    | _ => .error "Invalid response format from Custom OCR API: expected array of pages"

/-- `postFilesToCustomApi(buffer, filename)`: run the try block and wrap
any failure message as the single `remoteOcrError` kind
(`Failed to process file with Custom OCR API: ${error.message}`). -/
def postFilesToCustomApi (fetchOcr : Bytes → String → HttpResponse) (usage : Option String)
    (buffer : Bytes) (filename : String) : Except LoaderError (List Document) :=
  match postFilesAttempt usage (fetchOcr buffer filename) filename with
  | .ok docs => .ok docs
  | .error msg => .error (.remoteOcrError ("Failed to process file with Custom OCR API: " ++ msg))

/-- `textSplitter ? await textSplitter.splitDocuments(docs) : docs`. -/
def applySplitter (textSplitter : Option (List Document → List Document))
    (docs : List Document) : List Document :=
  match textSplitter with
  | some split => split docs
  | none => docs

/-- `extractDocs(usage, bf, legacyBuild, textSplitter, docs)`: the local
PDF path.  The `PDFLoader` collaborator `pdfLoad` is keyed by its
`splitPages` option (`false` when usage is `perFile`, the default `true`
otherwise) and by `legacyBuild` (which selects the pdfjs build). -/
def extractDocs (pdfLoad : Bool → Bool → Bytes → List Document) (usage : Option String)
    (bf : Bytes) (legacyBuild : Bool)
    (textSplitter : Option (List Document → List Document)) : List Document :=
  if usage = some "perFile" then
    applySplitter textSplitter (pdfLoad false legacyBuild bf)
  else
    applySplitter textSplitter (pdfLoad true legacyBuild bf)

/-- The node's resolved inputs for one invocation: the eight recognized
upload-carrying fields, the OCR configuration (URL input and the API key
retrieved from the credential), the usage mode, the injected splitter, the
parsed metadata overlay (`none` when absent/falsy), the legacy-build flag
and the requested output channel. -/
structure NodeInputs where
  processFile : Option String
  txtFile : Option String
  yamlFile : Option String
  docxFile : Option String
  jsonlinesFile : Option String
  csvFile : Option String
  jsonFile : Option String
  fileObject : Option String
  customOcrApiUrl : Option String
  customOcrApiKey : Option String
  usage : Option String
  textSplitter : Option (List Document → List Document)
  metadata : Option Metadata
  legacyBuild : Bool
  output : Option String

/-- The external collaborators one invocation consumes: file storage
(already keyed by `orgId`/`chatflowid`), the OCR HTTP transport, the local
PDF engine, `JSON.parse` on a bracketed string-list literal,
`Buffer.from(-, 'base64')`, and `handleEscapeCharacters`. -/
structure Collaborators where
  getFileFromStorage : String → Bytes
  fetchOcr : Bytes → String → HttpResponse
  pdfLoad : Bool → Bool → Bytes → List Document
  jsonParseStringList : String → List String
  b64decode : String → Bytes
  handleEscapeCharacters : String → Bool → String

/-- The loop body shared by both resolver branches: with a truthy OCR URL
and API key use the remote OCR call (then the optional splitter),
otherwise the local `extractDocs` path. -/
def processOneFile (collab : Collaborators) (inputs : NodeInputs) (bf : Bytes)
    (filename : String) : Except LoaderError (List Document) :=
  if jsTruthyStr inputs.customOcrApiUrl && jsTruthyStr inputs.customOcrApiKey then
    match postFilesToCustomApi collab.fetchOcr inputs.usage bf filename with
    | .error e => .error e
    | .ok customDocs => .ok (applySplitter inputs.textSplitter customDocs)
  else
    .ok (extractDocs collab.pdfLoad inputs.usage bf inputs.legacyBuild inputs.textSplitter)

/-- `fileBase64 = processFile || txtFile || ... || fileObject`, then the
`if (fileBase64)` guard: the first truthy field, `none` when all eight are
absent or empty. -/
def fileBase64Of (inputs : NodeInputs) : Option String :=
  if jsTruthyStr inputs.processFile then inputs.processFile
  else if jsTruthyStr inputs.txtFile then inputs.txtFile
  else if jsTruthyStr inputs.yamlFile then inputs.yamlFile
  else if jsTruthyStr inputs.docxFile then inputs.docxFile
  else if jsTruthyStr inputs.jsonlinesFile then inputs.jsonlinesFile
  else if jsTruthyStr inputs.csvFile then inputs.csvFile
  else if jsTruthyStr inputs.jsonFile then inputs.jsonFile
  else if jsTruthyStr inputs.fileObject then inputs.fileObject
  else none

/-- Storage branch file list: strip the `FILE-STORAGE::` marker (the
`replace` call removes its single leading occurrence), then parse a
bracketed literal as a list of keys, else a single key. -/
def storageFilesOf (collab : Collaborators) (fileBase64 : String) : List String :=
  let fileName := fileBase64.drop ("FILE-STORAGE::".length)
  if startsWithStr fileName "[" && endsWithStr fileName "]" then
    collab.jsonParseStringList fileName
  else [fileName]

/-- Inline branch file list: a bracketed literal is a list of data-URI
values, else a single value. -/
def inlineFilesOf (collab : Collaborators) (fileBase64 : String) : List String :=
  if startsWithStr fileBase64 "[" && endsWithStr fileBase64 "]" then
    collab.jsonParseStringList fileBase64
  else [fileBase64]

/-- One uploaded file resolved to raw bytes plus a filename. -/
structure RawFileInput where
  bytes : Bytes
  filename : String
deriving DecidableEq, Repr

/-- Decoding of one inline upload value, mirroring
`const splitDataURI = file.split(',')`,
`const filename = splitDataURI.pop()?.split(':')[1] ?? ''`,
`const bf = Buffer.from(splitDataURI.pop() || '', 'base64')`:
the two `pop` calls take the last comma-segment (filename carrier) and
then the new last segment (base64 payload). -/
def resolveInlineFile (b64decode : String → Bytes) (file : String) : RawFileInput :=
  let splitDataURI := jsSplit ',' file
  let filename :=
    match splitDataURI.getLast? with
    | some seg => (jsSplit ':' seg).getD 1 ""
    | none => ""
  let afterPop := splitDataURI.dropLast
  let payload :=
    match afterPop.getLast? with
    | some s => s
    | none => ""
  ⟨b64decode payload, filename⟩

/-- The `for (const file of files)` loop of the storage branch: skip falsy
entries, fetch bytes from storage, process; the first failure aborts the
whole loop (the thrown error propagates out of `init`). -/
def processStorageFiles (collab : Collaborators) (inputs : NodeInputs) :
    List String → List Document → Except LoaderError (List Document)
  | [], docs => .ok docs
  | file :: rest, docs =>
    if file = "" then processStorageFiles collab inputs rest docs
    else
      match processOneFile collab inputs (collab.getFileFromStorage file) file with
      | .error e => .error e
      | .ok newDocs => processStorageFiles collab inputs rest (docs ++ newDocs)

/-- The `for (const file of files)` loop of the inline branch: skip falsy
entries, decode the data-URI value, process; the first failure aborts. -/
def processInlineFiles (collab : Collaborators) (inputs : NodeInputs) :
    List String → List Document → Except LoaderError (List Document)
  | [], docs => .ok docs
  | file :: rest, docs =>
    if file = "" then processInlineFiles collab inputs rest docs
    else
      let raw := resolveInlineFile collab.b64decode file
      match processOneFile collab inputs raw.bytes raw.filename with
      | .error e => .error e
      | .ok newDocs => processInlineFiles collab inputs rest (docs ++ newDocs)

/-- The final metadata-overlay step (`docs.map(doc => ({...doc, metadata:
{...doc.metadata, ...parsedMetadata}}))`). -/
def applyMetadataOverlay (docs : List Document) (overlay : Metadata) : List Document :=
  docs.map (fun doc => ⟨doc.pageContent, assign doc.metadata overlay⟩)

/-- The invocation's return value: the document array or the concatenated
text channel. -/
inductive InitOutput where
  | document (docs : List Document)
  | text (s : String)
deriving Repr

/-- `init(nodeData, _, options)`: resolve the upload source, process every
file through the chosen extraction strategy, apply the metadata overlay,
and shape the output for the requested channel. -/
def init (inputs : NodeInputs) (collab : Collaborators) : Except LoaderError InitOutput :=
  match fileBase64Of inputs with
  | none => .error .inputError
  | some fileBase64 =>
    let docsResult :=
      if startsWithStr fileBase64 "FILE-STORAGE::" then
        processStorageFiles collab inputs (storageFilesOf collab fileBase64) []
      else
        processInlineFiles collab inputs (inlineFilesOf collab fileBase64) []
    match docsResult with
    | .error e => .error e
    | .ok docs0 =>
      let docs :=
        match inputs.metadata with
        | some parsedMetadata => applyMetadataOverlay docs0 parsedMetadata
        | none => docs0
      if inputs.output = some "document" then .ok (.document docs)
      else
        let finaltext := docs.foldl (fun acc doc => acc ++ doc.pageContent ++ "\n") ""
        .ok (.text (collab.handleEscapeCharacters finaltext false))

/-- Value of one base64 alphabet character; `none` for characters outside
the alphabet (Node's decoder skips those). -/
def base64CharVal (c : Char) : Option Nat :=
  if 'A' ≤ c ∧ c ≤ 'Z' then some (c.toNat - 65)
  else if 'a' ≤ c ∧ c ≤ 'z' then some (c.toNat - 97 + 26)
  else if '0' ≤ c ∧ c ≤ '9' then some (c.toNat - 48 + 52)
  else if c = '+' then some 62
  else if c = '/' then some 63
  else none

/-- Reassemble bytes from a list of 6-bit values: full groups of four give
three bytes, a trailing group of three or two gives two or one byte. -/
def decodeSextets : List Nat → List Nat
  | a :: b :: c :: d :: rest =>
    (a * 4 + b / 16) :: ((b % 16) * 16 + c / 4) :: ((c % 4) * 64 + d) :: decodeSextets rest
  | [a, b, c] => [a * 4 + b / 16, (b % 16) * 16 + c / 4]
  | [a, b] => [a * 4 + b / 16]
  | _ => []

/-- A concrete base64 decoder standing in for `Buffer.from(s, 'base64')`
when a closed instance of the model is evaluated. -/
def base64decode (s : String) : Bytes :=
  decodeSextets (s.toList.filterMap base64CharVal)

/-- Lookup in the shallow merge of `entry` over `base` (entry keys win):
the vocabulary in which the spec's metadata claims are stated. -/
def mergeLookup (base entry : Metadata) (q : String) : Option MVal :=
  match getKey entry q with
  | some v => some v
  | none => getKey base q

theorem getKey_setKey (m : Metadata) (k : String) (v : MVal) (q : String) :
    getKey (setKey m k v) q = if k = q then some v else getKey m q := by
  induction m with
  | nil => simp [setKey, getKey]
  | cons hd tl ih =>
    obtain ⟨a, b⟩ := hd
    by_cases hak : a = k
    · subst hak
      simp only [setKey, if_pos rfl, getKey]
      by_cases haq : a = q
      · simp [haq]
      · simp [haq]
    · simp only [setKey, if_neg hak, getKey]
      by_cases haq : a = q
      · subst haq
        have hkq : ¬(k = a) := fun h => hak h.symm
        simp [hkq]
      · simp [haq, ih]

theorem getKey_eq_none_of_not_mem (m : Metadata) (q : String)
    (h : q ∉ m.map Prod.fst) : getKey m q = none := by
  induction m with
  | nil => simp [getKey]
  | cons hd tl ih =>
    obtain ⟨a, b⟩ := hd
    simp only [List.map_cons, List.mem_cons] at h
    push_neg at h
    obtain ⟨hq, htl⟩ := h
    simp only [getKey]
    rw [if_neg (fun hh => hq hh.symm)]
    exact ih htl

theorem getKey_assign_of_not_mem (src : Metadata) (t : Metadata) (q : String)
    (h : q ∉ src.map Prod.fst) : getKey (assign t src) q = getKey t q := by
  induction src generalizing t with
  | nil => simp [assign]
  | cons hd tl ih =>
    obtain ⟨k, v⟩ := hd
    simp only [List.map_cons, List.mem_cons] at h
    push_neg at h
    obtain ⟨hq, htl⟩ := h
    simp only [assign]
    rw [ih _ htl, getKey_setKey, if_neg (fun hh => hq hh.symm)]

theorem getKey_assign (src t : Metadata) (q : String) (h : keysNodup src) :
    getKey (assign t src) q = mergeLookup t src q := by
  induction src generalizing t with
  | nil => simp [assign, mergeLookup, getKey]
  | cons hd tl ih =>
    obtain ⟨k, v⟩ := hd
    have h0 : (k :: tl.map Prod.fst).Nodup := by simpa [keysNodup] using h
    have hkmem : k ∉ tl.map Prod.fst := (List.nodup_cons.mp h0).1
    have hnd : keysNodup tl := (List.nodup_cons.mp h0).2
    simp only [assign]
    rw [ih _ hnd]
    by_cases hkq : k = q
    · subst hkq
      have htl : getKey tl k = none := getKey_eq_none_of_not_mem tl k hkmem
      simp [mergeLookup, getKey, htl, getKey_setKey]
    · simp only [mergeLookup, getKey, if_neg (fun hh => hkq hh)]
      rw [getKey_setKey, if_neg hkq]

theorem jsTruthyStr_iff (o : Option String) :
    jsTruthyStr o = true ↔ ∃ s, o = some s ∧ s ≠ "" := by
  cases o with
  | none => simp [jsTruthyStr]
  | some s =>
    simp only [jsTruthyStr, Bool.not_eq_true', beq_eq_false_iff_ne]
    constructor
    · intro h; exact ⟨s, rfl, h⟩
    · rintro ⟨s1, hs, hne⟩
      cases hs
      exact hne

theorem perPage_length (usage : Option String) (result : List OcrEntry) (filename : String)
    (hu : ¬ usage = some "perFile") :
    (extractDocsFromCustomApi usage result filename).length = result.length := by
  simp [extractDocsFromCustomApi, hu, List.enum_length]

theorem perPage_getD (usage : Option String) (result : List OcrEntry) (filename : String)
    (hu : ¬ usage = some "perFile") (i : Nat) (h : i < result.length) :
    (extractDocsFromCustomApi usage result filename).getD i ⟨"", []⟩
      = perPageDocOf filename (isPdfFilename filename) i (result.getD i (.str "")) := by
  have hlen : i < (result.enum.map
      (fun p => perPageDocOf filename (isPdfFilename filename) p.1 p.2)).length := by
    simpa [List.length_map, List.enum_length] using h
  have henum : i < result.enum.length := by simpa [List.enum_length] using h
  simp only [extractDocsFromCustomApi, if_neg hu]
  rw [List.getD_eq_getElem?_getD, List.getElem?_eq_getElem hlen, List.getElem_map,
    List.getElem_enum]
  rw [List.getD_eq_getElem?_getD, List.getElem?_eq_getElem h]
  rfl

/-- The `loc.lines` value exactly as claim C1 words it: the entry's
`lines` field, else the `lines` field inside the entry's metadata, else —
unconditionally — the computed `{from: 1, to: lineCount}` range.  (Stated
from the claim's words, to be compared with `locLinesOf` from the
source.) -/
def claimedLinesOf (item : OcrEntry) (pageContent : String) : MVal :=
  match entryLinesOf item with
  | some v => v
  | none =>
    match (entryMetaOf item).bind (fun m => getKey m "lines") with
    | some v => v
    | none => .lines ⟨1, lineCountOf pageContent⟩

/-- C1 counterexample: for the response `[""]` (one page of empty text)
and filename `"doc.pdf"`, the emitted page's `loc` object carries no
`lines` sub-field at all, while the claim's priority rule demands the
computed `{from: 1, to: 1}`. -/
theorem perPage_lines_counterexample :
    getKey ((extractDocsFromCustomApi (some "perPage") [.str ""] "doc.pdf").getD 0
        ⟨"", []⟩).metadata "loc"
      = some (.locNoLines 1) ∧
    some (MVal.locNoLines 1)
      ≠ some (MVal.mkLoc 1 (some (claimedLinesOf (.str "") (extractText (.str ""))))) := by
  decide

/-- C1 (amended): in `perPage` mode with a (case-insensitive) `.pdf`
filename, the normalizer emits one page per entry in order; its text is
the entry's extracted text; its metadata is `source`/`custom_ocr` base
shallow-merged with the entry's object-level metadata (entry keys win),
and its `loc` key holds `pageNumber = index + 1` together with the
`lines` cascade (entry `lines`, else metadata `lines`, else the computed
range only when the page's text is non-empty, else no `lines` field). -/
theorem perPage_pdf_normalization (usage : Option String) (result : List OcrEntry)
    (filename : String) (hu : usage = some "perPage")
    (hpdf : isPdfFilename filename = true)
    (hnd : ∀ e ∈ result, keysNodup ((entryMetaOf e).getD [])) :
    (extractDocsFromCustomApi usage result filename).length = result.length ∧
    ∀ i, i < result.length →
      ((extractDocsFromCustomApi usage result filename).getD i ⟨"", []⟩).pageContent
          = extractText (result.getD i (.str "")) ∧
      getKey ((extractDocsFromCustomApi usage result filename).getD i ⟨"", []⟩).metadata "loc"
          = some (MVal.mkLoc (i + 1)
              (locLinesOf (result.getD i (.str "")) (extractText (result.getD i (.str ""))))) ∧
      ∀ k, k ≠ "loc" →
        getKey ((extractDocsFromCustomApi usage result filename).getD i ⟨"", []⟩).metadata k
            = mergeLookup (baseMetadata filename)
                ((entryMetaOf (result.getD i (.str ""))).getD []) k := by
  subst hu
  have hne : ¬ (some "perPage" : Option String) = some "perFile" := by decide
  refine ⟨perPage_length _ _ _ hne, ?_⟩
  intro i hi
  have hmem : result.getD i (.str "") ∈ result := by
    simp only [List.getD_eq_getElem?_getD, List.getElem?_eq_getElem hi, Option.getD_some]
    exact List.getElem_mem _
  rw [perPage_getD _ _ _ hne i hi, hpdf]
  obtain ⟨item, hitem⟩ : ∃ it, result.getD i (.str "") = it := ⟨_, rfl⟩
  rw [hitem] at hmem ⊢
  have hnd0 : keysNodup ((entryMetaOf item).getD []) := hnd item hmem
  refine ⟨rfl, ?_, ?_⟩
  · simp [perPageDocOf, getKey_setKey]
  · intro k hk
    have hloc : ¬ ("loc" = k) := fun h => hk h.symm
    cases hv : entryMetaOf item with
    | none =>
      simp [perPageDocOf, getKey_setKey, hloc, hv, mergeLookup, getKey]
    | some m =>
      have hnd1 : keysNodup m := by simpa [hv] using hnd0
      simp [perPageDocOf, hv, getKey_setKey, hloc]
      exact getKey_assign m _ k hnd1

/-- C1 witness: the claim's own round-trip example
`["page one", "page two"]` / `"doc.pdf"`: two pages, `loc.pageNumber` 1
and 2, `loc.lines = {from: 1, to: 1}`. -/
theorem perPage_pdf_normalization_witness :
    isPdfFilename "doc.pdf" = true ∧
    (extractDocsFromCustomApi (some "perPage") [.str "page one", .str "page two"]
        "doc.pdf").length = 2 ∧
    (extractDocsFromCustomApi (some "perPage") [.str "page one", .str "page two"]
        "doc.pdf").map (fun d => getKey d.metadata "loc")
      = [some (.locWithLines 1 (.lines ⟨1, 1⟩)), some (.locWithLines 2 (.lines ⟨1, 1⟩))] :=
  ⟨by decide,
   (perPage_pdf_normalization (some "perPage") [.str "page one", .str "page two"] "doc.pdf"
      rfl (by decide) (by decide)).1,
   by decide⟩

/-- perFile page text exactly as the spec words it: the entries' texts
joined by a blank line, a `<PAGE_BREAK>{n}</PAGE_BREAK>` marker before
every entry after the first. -/
def specPerFileContent (texts : List String) : String :=
  String.intercalate "\n\n" (texts.enum.map (fun p =>
    if p.1 = 0 then p.2
    else "<PAGE_BREAK>" ++ toString (p.1 + 1) ++ "</PAGE_BREAK>\n\n" ++ p.2))

/-- C2 counterexample: when the first entry carries object-level metadata
with a `source` key, the emitted page's `metadata.source` is the entry's
value, not the filename the claim demands for every response array. -/
theorem perFile_metadata_counterexample :
    (extractDocsFromCustomApi (some "perFile")
        [.obj none (some "a") none (some [("source", .str "other")]) none] "doc.pdf").map
        (fun d => getKey d.metadata "source")
      = [some (.str "other")] ∧
    some (MVal.str "other") ≠ some (MVal.str "doc.pdf") := by
  decide

/-- C2 (amended): in `perFile` mode the normalizer emits exactly one page
whose content is the spec's join-with-markers of the entries' texts, and
whose metadata is the `source`/`custom_ocr` base shallow-merged with the
first entry's object-level metadata (entry keys win). -/
theorem perFile_normalization (usage : Option String) (result : List OcrEntry)
    (filename : String) (hu : usage = some "perFile")
    (hnd : keysNodup ((result.head?.bind entryMetaOf).getD [])) :
    ∃ d : Document,
      extractDocsFromCustomApi usage result filename = [d] ∧
      d.pageContent = specPerFileContent (result.map extractText) ∧
      ∀ k, getKey d.metadata k
          = mergeLookup (baseMetadata filename) ((result.head?.bind entryMetaOf).getD []) k := by
  subst hu
  simp only [extractDocsFromCustomApi, if_pos rfl]
  refine ⟨_, rfl, ?_, ?_⟩
  · show String.intercalate "\n\n" _ = specPerFileContent _
    unfold specPerFileContent
    rw [List.enum_map, List.map_map]
    congr 1
  · intro k
    cases result with
    | nil => simp [mergeLookup, getKey]
    | cons e tl =>
      cases hv : entryMetaOf e with
      | none => simp [hv, mergeLookup, getKey]
      | some m =>
        have hnd1 : keysNodup m := by simpa [hv] using hnd
        simp only [List.head?, Option.some_bind, hv, Option.getD_some]
        exact getKey_assign m _ k hnd1

/-- C2 witness: the claim's own example `["page one", "page two"]` /
`"doc.pdf"` in `perFile` mode: one page with the exact marker-joined
content. -/
theorem perFile_normalization_witness :
    keysNodup (((([OcrEntry.str "page one", .str "page two"] : List OcrEntry).head?).bind
        entryMetaOf).getD []) ∧
    (∃ d : Document,
      extractDocsFromCustomApi (some "perFile") [.str "page one", .str "page two"] "doc.pdf"
          = [d] ∧
      d.pageContent = specPerFileContent
          (([OcrEntry.str "page one", .str "page two"] : List OcrEntry).map extractText) ∧
      ∀ k, getKey d.metadata k
          = mergeLookup (baseMetadata "doc.pdf")
              (((([OcrEntry.str "page one", .str "page two"] : List OcrEntry).head?).bind
                  entryMetaOf).getD []) k) ∧
    (extractDocsFromCustomApi (some "perFile") [.str "page one", .str "page two"]
        "doc.pdf").map Document.pageContent
      = ["page one\n\n<PAGE_BREAK>2</PAGE_BREAK>\n\npage two"] :=
  ⟨by decide,
   perFile_normalization (some "perFile") [.str "page one", .str "page two"] "doc.pdf"
     rfl (by decide),
   by decide⟩

/-- The split behavior claim C3 asserts: cut the value at its FIRST
comma; the pair is (prefix before it, payload after it).  (Stated from
the claim's words, to be compared with `resolveInlineFile` from the
source.) -/
def specSplitFirstComma (file : String) : String × String :=
  match jsSplit ',' file with
  | [] => ("", "")
  | p :: rest => (p, String.intercalate "," rest)

/-- C3 counterexample: on the upload value
`data:application/pdf;base64,QUJD,filename:doc.pdf` the code decodes only
the middle segment `QUJD` (bytes `ABC`), not everything after the first
comma as the claim states, and the filename `doc.pdf` comes from the last
segment, not from the prefix before the first comma (which does not even
contain it). -/
theorem resolveInline_counterexample :
    (resolveInlineFile base64decode
        "data:application/pdf;base64,QUJD,filename:doc.pdf").bytes
      ≠ base64decode (specSplitFirstComma
        "data:application/pdf;base64,QUJD,filename:doc.pdf").2 ∧
    (resolveInlineFile base64decode
        "data:application/pdf;base64,QUJD,filename:doc.pdf").bytes = [65, 66, 67] ∧
    (resolveInlineFile base64decode
        "data:application/pdf;base64,QUJD,filename:doc.pdf").filename = "doc.pdf" ∧
    ¬ List.IsInfix "doc.pdf".data (specSplitFirstComma
        "data:application/pdf;base64,QUJD,filename:doc.pdf").1.data := by
  decide

/-- C3 (amended): the Source Resolver splits each inline upload value on
EVERY comma; the filename is the second colon-separated token of the
LAST comma-segment — JS `split(':')[1]`, the text between its first and
second colons — and empty when that segment has no colon; the bytes are
the base64 decoding of the SECOND-TO-LAST comma-segment (the empty string
when fewer than two segments exist). -/
theorem resolveInline_spec (dec : String → Bytes) (file : String) :
    (resolveInlineFile dec file).filename
        = (jsSplit ':' ((jsSplit ',' file).getLastD "")).getD 1 "" ∧
    (resolveInlineFile dec file).bytes
        = dec (((jsSplit ',' file).dropLast).getLastD "") := by
  constructor
  · show (match (jsSplit ',' file).getLast? with
      | some seg => (jsSplit ':' seg).getD 1 ""
      | none => "") = _
    rw [List.getLastD_eq_getLast?]
    cases h : (jsSplit ',' file).getLast? with
    | none => simp [jsSplit, getKey]
    | some seg => simp
  · show dec (match ((jsSplit ',' file).dropLast).getLast? with
      | some s => s
      | none => "") = _
    rw [List.getLastD_eq_getLast?]
    cases h : ((jsSplit ',' file).dropLast).getLast? with
    | none => simp
    | some s => simp

/-- Text extraction exactly as claim C4 words it: the first PRESENT field
among `pageContent`, `text`, `content`, empty string when none is
present.  (Stated from the claim's words, to be compared with
`extractText` from the source.) -/
def specFirstPresentText : OcrEntry → String
  | .str s => s
  | .obj pc t c _ _ =>
    match pc with
    | some s => s
    | none =>
      match t with
      | some s => s
      | none =>
        match c with
        | some s => s
        | none => ""

/-- C4 counterexample: for the entry `{pageContent: "", text: "hi"}` the
code extracts `"hi"` (JS `||` skips the present-but-empty `pageContent`),
while the claim's first-present rule yields `""`. -/
theorem extractText_counterexample :
    extractText (.obj (some "") (some "hi") none none none) = "hi" ∧
    specFirstPresentText (.obj (some "") (some "hi") none none none) = "" ∧
    ("hi" : String) ≠ "" := by
  decide

/-- The extraction rule the code actually implements, in the claim's
vocabulary: the first field among `pageContent`, `text`, `content` that
is present with a non-empty value, else the empty string. -/
def specFirstNonEmptyText (pc t c : Option String) : String :=
  ((([pc, t, c].filterMap id).filter (fun s => !(s == ""))).headD "")

/-- C4 (amended): for every non-string entry the extracted text is the
value of the first of `pageContent`, `text`, `content` (in that order)
that is present AND non-empty, and the empty string when none is; string
entries are returned as-is. -/
theorem extractText_spec (pc t c : Option String) (md : Option Metadata)
    (ln : Option MVal) :
    extractText (.obj pc t c md ln) = specFirstNonEmptyText pc t c ∧
    ∀ s, extractText (.str s) = s := by
  refine ⟨?_, fun s => rfl⟩
  cases pc with
  | some s1 =>
    by_cases h1 : s1 = "" <;>
      cases t with
      | some s2 =>
        by_cases h2 : s2 = "" <;>
          cases c with
          | some s3 =>
            by_cases h3 : s3 = "" <;>
              simp_all [extractText, specFirstNonEmptyText, jsTruthyStr]
          | none => simp_all [extractText, specFirstNonEmptyText, jsTruthyStr]
      | none =>
        cases c with
        | some s3 =>
          by_cases h3 : s3 = "" <;>
            simp_all [extractText, specFirstNonEmptyText, jsTruthyStr]
        | none => simp_all [extractText, specFirstNonEmptyText, jsTruthyStr]
  | none =>
    cases t with
    | some s2 =>
      by_cases h2 : s2 = "" <;>
        cases c with
        | some s3 =>
          by_cases h3 : s3 = "" <;>
            simp_all [extractText, specFirstNonEmptyText, jsTruthyStr]
        | none => simp_all [extractText, specFirstNonEmptyText, jsTruthyStr]
    | none =>
      cases c with
      | some s3 =>
        by_cases h3 : s3 = "" <;>
          simp_all [extractText, specFirstNonEmptyText, jsTruthyStr]
      | none => simp_all [extractText, specFirstNonEmptyText, jsTruthyStr]

set_option maxRecDepth 8192 in
/-- C5: whenever the OCR endpoint answers with HTTP success but a JSON
body that is not an array, the call fails with the wrapped
`remoteOcrError` whose message mentions "expected array of pages", and no
documents are returned. -/
theorem postFiles_nonArray (fetchOcr : Bytes → String → HttpResponse)
    (usage : Option String) (bf : Bytes) (filename : String)
    (hok : (fetchOcr bf filename).ok = true)
    (harr : ∀ l, (fetchOcr bf filename).json ≠ .jarr l) :
    postFilesToCustomApi fetchOcr usage bf filename
        = .error (.remoteOcrError ("Failed to process file with Custom OCR API: "
            ++ "Invalid response format from Custom OCR API: expected array of pages")) ∧
    List.IsInfix "expected array of pages".data
        ("Failed to process file with Custom OCR API: "
            ++ "Invalid response format from Custom OCR API: expected array of pages").data ∧
    ∀ docs, postFilesToCustomApi fetchOcr usage bf filename ≠ .ok docs := by
  have hmain : postFilesToCustomApi fetchOcr usage bf filename
      = .error (.remoteOcrError ("Failed to process file with Custom OCR API: "
          ++ "Invalid response format from Custom OCR API: expected array of pages")) := by
    unfold postFilesToCustomApi postFilesAttempt
    rw [hok]
    cases hj : (fetchOcr bf filename).json with
    | jarr l => exact absurd hj (harr l)
    | jobj m => simp
    | jstr s => simp
    | jnum n => simp
    | jbool b => simp
    | jnull => simp
  refine ⟨hmain, by decide, ?_⟩
  intro docs
  rw [hmain]
  intro h
  exact Except.noConfusion h

/-- C5 witness: a 200 response whose body is the JSON object `{}`. -/
theorem postFiles_nonArray_witness :
    ((fun (_ : Bytes) (_ : String) => (⟨true, 200, "", .jobj []⟩ : HttpResponse)) [] "doc.pdf").ok
        = true ∧
    postFilesToCustomApi (fun _ _ => ⟨true, 200, "", .jobj []⟩) (some "perPage") [] "doc.pdf"
        = .error (.remoteOcrError ("Failed to process file with Custom OCR API: "
            ++ "Invalid response format from Custom OCR API: expected array of pages")) :=
  ⟨rfl,
   (postFiles_nonArray (fun _ _ => ⟨true, 200, "", .jobj []⟩) (some "perPage") [] "doc.pdf"
      rfl (fun l h => by simp at h)).1⟩

/-- C6: when none of the eight recognized upload fields carries a truthy
value (each is absent or the empty string), `init` fails with the
`inputError` (`File upload is required`) and produces no output. -/
theorem init_no_upload (inputs : NodeInputs) (collab : Collaborators)
    (h1 : jsTruthyStr inputs.processFile = false)
    (h2 : jsTruthyStr inputs.txtFile = false)
    (h3 : jsTruthyStr inputs.yamlFile = false)
    (h4 : jsTruthyStr inputs.docxFile = false)
    (h5 : jsTruthyStr inputs.jsonlinesFile = false)
    (h6 : jsTruthyStr inputs.csvFile = false)
    (h7 : jsTruthyStr inputs.jsonFile = false)
    (h8 : jsTruthyStr inputs.fileObject = false) :
    init inputs collab = .error .inputError := by
  unfold init fileBase64Of
  rw [h1, h2, h3, h4, h5, h6, h7, h8]
  rfl

/-- Inert collaborators for closed instances of the model. -/
def collabStub : Collaborators :=
  ⟨fun _ => [], fun _ _ => ⟨true, 200, "", .jnull⟩, fun _ _ _ => [], fun _ => [],
   base64decode, fun s _ => s⟩

/-- An invocation with every input absent. -/
def inputsNone : NodeInputs :=
  ⟨none, none, none, none, none, none, none, none, none, none, none, none, none,
   false, none⟩

/-- C6 witness: all upload fields absent. -/
theorem init_no_upload_witness :
    jsTruthyStr inputsNone.processFile = false ∧
    init inputsNone collabStub = .error .inputError :=
  ⟨rfl, init_no_upload inputsNone collabStub rfl rfl rfl rfl rfl rfl rfl rfl⟩

/-- C7: the metadata-overlay step keeps the page count, order and every
page's text unchanged, and every page's new metadata is, as a mapping,
its old metadata shallow-merged with the overlay, overlay keys winning. -/
theorem applyMetadataOverlay_spec (docs : List Document) (overlay : Metadata)
    (hnd : keysNodup overlay) :
    (applyMetadataOverlay docs overlay).length = docs.length ∧
    ∀ i : Nat,
      ((applyMetadataOverlay docs overlay).getD i ⟨"", []⟩).pageContent
          = (docs.getD i ⟨"", []⟩).pageContent ∧
      (i < docs.length → ∀ k,
        getKey ((applyMetadataOverlay docs overlay).getD i ⟨"", []⟩).metadata k
            = mergeLookup (docs.getD i ⟨"", []⟩).metadata overlay k) := by
  refine ⟨by simp [applyMetadataOverlay], ?_⟩
  intro i
  by_cases hi : i < docs.length
  · have hmap : i < (applyMetadataOverlay docs overlay).length := by
      simpa [applyMetadataOverlay] using hi
    have hgd : (applyMetadataOverlay docs overlay).getD i ⟨"", []⟩
        = ⟨(docs.getD i ⟨"", []⟩).pageContent,
           assign (docs.getD i ⟨"", []⟩).metadata overlay⟩ := by
      unfold applyMetadataOverlay at hmap ⊢
      rw [List.getD_eq_getElem?_getD, List.getElem?_eq_getElem hmap, List.getElem_map]
      rw [List.getD_eq_getElem?_getD, List.getElem?_eq_getElem hi]
      rfl
    rw [hgd]
    exact ⟨rfl, fun _ k => getKey_assign overlay _ k hnd⟩
  · have hge : docs.length ≤ i := Nat.le_of_not_lt hi
    have hmap : (applyMetadataOverlay docs overlay).length ≤ i := by
      simpa [applyMetadataOverlay] using hge
    rw [List.getD_eq_getElem?_getD (applyMetadataOverlay docs overlay) i ⟨"", []⟩,
      List.getElem?_eq_none hmap, List.getD_eq_getElem?_getD docs i ⟨"", []⟩,
      List.getElem?_eq_none hge]
    exact ⟨rfl, fun hlt => absurd hlt hi⟩

/-- C7 witness: the spec's example, a `{tag: "x"}` overlay on a 3-page
collection; also checks concretely that an existing `tag` key is
overwritten and other keys survive. -/
theorem applyMetadataOverlay_witness :
    keysNodup [("tag", .str "x")] ∧
    (applyMetadataOverlay
        [⟨"p1", [("k1", .str "v1")]⟩, ⟨"p2", []⟩, ⟨"p3", [("tag", .str "old")]⟩]
        [("tag", .str "x")]
      = [⟨"p1", [("k1", .str "v1"), ("tag", .str "x")]⟩,
         ⟨"p2", [("tag", .str "x")]⟩,
         ⟨"p3", [("tag", .str "x")]⟩]) ∧
    ((applyMetadataOverlay
        [⟨"p1", [("k1", .str "v1")]⟩, ⟨"p2", []⟩, ⟨"p3", [("tag", .str "old")]⟩]
        [("tag", .str "x")]).length = 3 ∧
      ∀ i : Nat,
        ((applyMetadataOverlay
            [⟨"p1", [("k1", .str "v1")]⟩, ⟨"p2", []⟩, ⟨"p3", [("tag", .str "old")]⟩]
            [("tag", .str "x")]).getD i ⟨"", []⟩).pageContent
            = (([⟨"p1", [("k1", .str "v1")]⟩, ⟨"p2", []⟩, ⟨"p3", [("tag", .str "old")]⟩] :
                List Document).getD i ⟨"", []⟩).pageContent ∧
        (i < ([⟨"p1", [("k1", .str "v1")]⟩, ⟨"p2", []⟩, ⟨"p3", [("tag", .str "old")]⟩] :
            List Document).length → ∀ k,
          getKey ((applyMetadataOverlay
              [⟨"p1", [("k1", .str "v1")]⟩, ⟨"p2", []⟩, ⟨"p3", [("tag", .str "old")]⟩]
              [("tag", .str "x")]).getD i ⟨"", []⟩).metadata k
              = mergeLookup (([⟨"p1", [("k1", .str "v1")]⟩, ⟨"p2", []⟩,
                  ⟨"p3", [("tag", .str "old")]⟩] : List Document).getD i ⟨"", []⟩).metadata
                  [("tag", .str "x")] k)) :=
  ⟨by decide, by decide,
   applyMetadataOverlay_spec
     [⟨"p1", [("k1", .str "v1")]⟩, ⟨"p2", []⟩, ⟨"p3", [("tag", .str "old")]⟩]
     [("tag", .str "x")] (by decide)⟩

/-- The storage-branch loop returns the error of the first failing file:
if every file before index `i` is skipped (falsy) or succeeds, file `i`
is non-empty and its processing fails with `e`, the whole loop result is
`.error e`, whatever comes after `i` and whatever was accumulated. -/
theorem processStorageFiles_error (collab : Collaborators) (inputs : NodeInputs) :
    ∀ (files : List String) (docs0 : List Document) (i : Nat) (e : LoaderError),
      i < files.length →
      (∀ j, j < i → files.getD j "" = "" ∨
        ∃ ds, processOneFile collab inputs
            (collab.getFileFromStorage (files.getD j "")) (files.getD j "") = .ok ds) →
      files.getD i "" ≠ "" →
      processOneFile collab inputs
          (collab.getFileFromStorage (files.getD i "")) (files.getD i "") = .error e →
      processStorageFiles collab inputs files docs0 = .error e := by
  intro files
  induction files with
  | nil => intro docs0 i e hi _ _ _; simp at hi
  | cons f rest ih =>
    intro docs0 i e hi hprev hne hfail
    cases i with
    | zero =>
      rw [List.getD_cons_zero] at hne hfail
      simp only [processStorageFiles, if_neg hne]
      rw [hfail]
    | succ i1 =>
      by_cases hf : f = ""
      · simp only [processStorageFiles, if_pos hf]
        exact ih docs0 i1 e (by simpa using hi)
          (fun j hj => by simpa [List.getD_cons_succ] using hprev (j + 1) (Nat.succ_lt_succ hj))
          (by simpa [List.getD_cons_succ] using hne)
          (by simpa [List.getD_cons_succ] using hfail)
      · rcases hprev 0 (Nat.succ_pos i1) with h0 | ⟨ds, h0⟩
        · rw [List.getD_cons_zero] at h0
          exact absurd h0 hf
        · rw [List.getD_cons_zero] at h0
          simp only [processStorageFiles, if_neg hf]
          rw [h0]
          exact ih (docs0 ++ ds) i1 e (by simpa using hi)
            (fun j hj => by simpa [List.getD_cons_succ] using hprev (j + 1) (Nat.succ_lt_succ hj))
            (by simpa [List.getD_cons_succ] using hne)
            (by simpa [List.getD_cons_succ] using hfail)

/-- The inline-branch loop returns the error of the first failing file,
in the same way as the storage-branch loop: files before `i` skipped or
successful, file `i` non-empty and failing with `e`, gives `.error e`. -/
theorem processInlineFiles_error (collab : Collaborators) (inputs : NodeInputs) :
    ∀ (files : List String) (docs0 : List Document) (i : Nat) (e : LoaderError),
      i < files.length →
      (∀ j, j < i → files.getD j "" = "" ∨
        ∃ ds, processOneFile collab inputs
            (resolveInlineFile collab.b64decode (files.getD j "")).bytes
            (resolveInlineFile collab.b64decode (files.getD j "")).filename = .ok ds) →
      files.getD i "" ≠ "" →
      processOneFile collab inputs
          (resolveInlineFile collab.b64decode (files.getD i "")).bytes
          (resolveInlineFile collab.b64decode (files.getD i "")).filename = .error e →
      processInlineFiles collab inputs files docs0 = .error e := by
  intro files
  induction files with
  | nil => intro docs0 i e hi _ _ _; simp at hi
  | cons f rest ih =>
    intro docs0 i e hi hprev hne hfail
    cases i with
    | zero =>
      rw [List.getD_cons_zero] at hne hfail
      simp only [processInlineFiles, if_neg hne]
      rw [hfail]
    | succ i1 =>
      by_cases hf : f = ""
      · simp only [processInlineFiles, if_pos hf]
        exact ih docs0 i1 e (by simpa using hi)
          (fun j hj => by simpa [List.getD_cons_succ] using hprev (j + 1) (Nat.succ_lt_succ hj))
          (by simpa [List.getD_cons_succ] using hne)
          (by simpa [List.getD_cons_succ] using hfail)
      · rcases hprev 0 (Nat.succ_pos i1) with h0 | ⟨ds, h0⟩
        · rw [List.getD_cons_zero] at h0
          exact absurd h0 hf
        · rw [List.getD_cons_zero] at h0
          simp only [processInlineFiles, if_neg hf]
          rw [h0]
          exact ih (docs0 ++ ds) i1 e (by simpa using hi)
            (fun j hj => by simpa [List.getD_cons_succ] using hprev (j + 1) (Nat.succ_lt_succ hj))
            (by simpa [List.getD_cons_succ] using hne)
            (by simpa [List.getD_cons_succ] using hfail)

/-- C8: whichever resolver branch an invocation takes (storage reference
or inline data-URI), if every resolved file before index `i` is skipped
or succeeds and processing of file `i` fails with error `e`, the whole
invocation returns exactly `.error e`: no partial document collection,
and the files after `i` cannot influence the result. -/
theorem init_aborts_on_remote_failure (inputs : NodeInputs) (collab : Collaborators)
    (fb : String) (i : Nat) (e : LoaderError)
    (hfb : fileBase64Of inputs = some fb) :
    (startsWithStr fb "FILE-STORAGE::" = true →
      i < (storageFilesOf collab fb).length →
      (∀ j, j < i → (storageFilesOf collab fb).getD j "" = "" ∨
        ∃ ds, processOneFile collab inputs
            (collab.getFileFromStorage ((storageFilesOf collab fb).getD j ""))
            ((storageFilesOf collab fb).getD j "") = .ok ds) →
      (storageFilesOf collab fb).getD i "" ≠ "" →
      processOneFile collab inputs
          (collab.getFileFromStorage ((storageFilesOf collab fb).getD i ""))
          ((storageFilesOf collab fb).getD i "") = .error e →
      init inputs collab = .error e) ∧
    (startsWithStr fb "FILE-STORAGE::" = false →
      i < (inlineFilesOf collab fb).length →
      (∀ j, j < i → (inlineFilesOf collab fb).getD j "" = "" ∨
        ∃ ds, processOneFile collab inputs
            (resolveInlineFile collab.b64decode ((inlineFilesOf collab fb).getD j "")).bytes
            (resolveInlineFile collab.b64decode ((inlineFilesOf collab fb).getD j "")).filename
          = .ok ds) →
      (inlineFilesOf collab fb).getD i "" ≠ "" →
      processOneFile collab inputs
          (resolveInlineFile collab.b64decode ((inlineFilesOf collab fb).getD i "")).bytes
          (resolveInlineFile collab.b64decode ((inlineFilesOf collab fb).getD i "")).filename
        = .error e →
      init inputs collab = .error e) := by
  constructor
  · intro hstore hi hprev hne hfail
    have hloop := processStorageFiles_error collab inputs (storageFilesOf collab fb)
      [] i e hi hprev hne hfail
    simp only [init, hfb]
    rw [if_pos hstore, hloop]
  · intro hstore hi hprev hne hfail
    have hloop := processInlineFiles_error collab inputs (inlineFilesOf collab fb)
      [] i e hi hprev hne hfail
    simp only [init, hfb]
    rw [if_neg (by simp [hstore]), hloop]

/-- Inert collaborators whose OCR transport always answers HTTP 500 with
body text `boom`. -/
def collabRemoteFail : Collaborators :=
  ⟨fun _ => [], fun _ _ => ⟨false, 500, "boom", .jnull⟩, fun _ _ _ => [], fun _ => [],
   base64decode, fun s _ => s⟩

/-- An invocation uploading the stored file `a.pdf` with a remote-OCR URL
and API key configured. -/
def inputsRemoteFail : NodeInputs :=
  ⟨some "FILE-STORAGE::a.pdf", none, none, none, none, none, none, none,
   some "http://ocr.example", some "secret", some "perPage", none, none, false,
   some "document"⟩

/-- An invocation uploading the inline data-URI for `a.pdf` with a
remote-OCR URL and API key configured. -/
def inputsInlineFail : NodeInputs :=
  ⟨some "data:application/pdf;base64,QUJD,filename:a.pdf", none, none, none, none, none,
   none, none, some "http://ocr.example", some "secret", some "perPage", none, none, false,
   some "document"⟩

/-- C8 witness: in both resolver branches (one stored file, and one
inline data-URI file) an OCR POST failing with HTTP 500 makes the
invocation return exactly that wrapped error. -/
theorem init_aborts_on_remote_failure_witness :
    fileBase64Of inputsRemoteFail = some "FILE-STORAGE::a.pdf" ∧
    startsWithStr "FILE-STORAGE::a.pdf" "FILE-STORAGE::" = true ∧
    (storageFilesOf collabRemoteFail "FILE-STORAGE::a.pdf").getD 0 "" ≠ "" ∧
    init inputsRemoteFail collabRemoteFail
        = .error (.remoteOcrError ("Failed to process file with Custom OCR API: "
            ++ "Custom OCR API request failed with status 500: boom")) ∧
    fileBase64Of inputsInlineFail = some "data:application/pdf;base64,QUJD,filename:a.pdf" ∧
    startsWithStr "data:application/pdf;base64,QUJD,filename:a.pdf" "FILE-STORAGE::" = false ∧
    (inlineFilesOf collabRemoteFail "data:application/pdf;base64,QUJD,filename:a.pdf").getD 0
        "" ≠ "" ∧
    init inputsInlineFail collabRemoteFail
        = .error (.remoteOcrError ("Failed to process file with Custom OCR API: "
            ++ "Custom OCR API request failed with status 500: boom")) :=
  ⟨rfl, by decide, by decide,
   (init_aborts_on_remote_failure inputsRemoteFail collabRemoteFail "FILE-STORAGE::a.pdf" 0
     (.remoteOcrError ("Failed to process file with Custom OCR API: "
        ++ "Custom OCR API request failed with status 500: boom"))
     rfl).1 (by decide) (by decide)
     (fun j hj => absurd hj (Nat.not_lt_zero j))
     (by decide) rfl,
   rfl, by decide, by decide,
   (init_aborts_on_remote_failure inputsInlineFail collabRemoteFail
     "data:application/pdf;base64,QUJD,filename:a.pdf" 0
     (.remoteOcrError ("Failed to process file with Custom OCR API: "
        ++ "Custom OCR API request failed with status 500: boom"))
     rfl).2 (by decide) (by decide)
     (fun j hj => absurd hj (Nat.not_lt_zero j))
     (by decide) rfl⟩

/-- The Remote OCR Strategy: POST the file to the endpoint, normalize,
then apply the optional text splitter. -/
def remoteOcrStrategy (collab : Collaborators) (inputs : NodeInputs) (bf : Bytes)
    (filename : String) : Except LoaderError (List Document) :=
  match postFilesToCustomApi collab.fetchOcr inputs.usage bf filename with
  | .error e => .error e
  | .ok customDocs => .ok (applySplitter inputs.textSplitter customDocs)

/-- The Local Extraction Strategy: the local PDF engine via
`extractDocs` (never fails in this model). -/
def localExtractionStrategy (collab : Collaborators) (inputs : NodeInputs) (bf : Bytes) :
    Except LoaderError (List Document) :=
  .ok (extractDocs collab.pdfLoad inputs.usage bf inputs.legacyBuild inputs.textSplitter)

/-- C9: per file, the Remote OCR Strategy runs exactly when both a
non-empty OCR URL and a non-empty API key are configured; otherwise the
Local Extraction Strategy runs. -/
theorem strategy_selection (collab : Collaborators) (inputs : NodeInputs) (bf : Bytes)
    (filename : String) :
    ((∃ u, inputs.customOcrApiUrl = some u ∧ u ≠ "") ∧
        (∃ w, inputs.customOcrApiKey = some w ∧ w ≠ "") →
      processOneFile collab inputs bf filename = remoteOcrStrategy collab inputs bf filename) ∧
    (¬ ((∃ u, inputs.customOcrApiUrl = some u ∧ u ≠ "") ∧
        (∃ w, inputs.customOcrApiKey = some w ∧ w ≠ "")) →
      processOneFile collab inputs bf filename = localExtractionStrategy collab inputs bf) := by
  constructor
  · rintro ⟨hu, hw⟩
    have hu1 : jsTruthyStr inputs.customOcrApiUrl = true := (jsTruthyStr_iff _).mpr hu
    have hw1 : jsTruthyStr inputs.customOcrApiKey = true := (jsTruthyStr_iff _).mpr hw
    simp [processOneFile, remoteOcrStrategy, hu1, hw1]
  · intro hnot
    cases hb : (jsTruthyStr inputs.customOcrApiUrl && jsTruthyStr inputs.customOcrApiKey) with
    | true =>
      simp only [Bool.and_eq_true] at hb
      exact absurd ⟨(jsTruthyStr_iff _).mp hb.1, (jsTruthyStr_iff _).mp hb.2⟩ hnot
    | false =>
      simp [processOneFile, localExtractionStrategy, hb]

/-- An invocation with a remote-OCR URL and API key configured and an
inline upload. -/
def inputsRemoteCfg : NodeInputs :=
  ⟨some "x", none, none, none, none, none, none, none,
   some "http://ocr.example", some "secret", some "perPage", none, none, false,
   some "document"⟩

/-- C9 witness: with URL and key configured the remote strategy runs;
with neither configured the local strategy runs. -/
theorem strategy_selection_witness :
    ((∃ u, inputsRemoteCfg.customOcrApiUrl = some u ∧ u ≠ "") ∧
      (∃ w, inputsRemoteCfg.customOcrApiKey = some w ∧ w ≠ "")) ∧
    processOneFile collabStub inputsRemoteCfg [] "a.pdf"
        = remoteOcrStrategy collabStub inputsRemoteCfg [] "a.pdf" ∧
    processOneFile collabStub inputsNone [] "a.pdf"
        = localExtractionStrategy collabStub inputsNone [] :=
  ⟨⟨⟨"http://ocr.example", rfl, by decide⟩, ⟨"secret", rfl, by decide⟩⟩,
   (strategy_selection collabStub inputsRemoteCfg [] "a.pdf").1
     ⟨⟨"http://ocr.example", rfl, by decide⟩, ⟨"secret", rfl, by decide⟩⟩,
   (strategy_selection collabStub inputsNone [] "a.pdf").2
     (fun h => by
       obtain ⟨⟨u, hu, _⟩, _⟩ := h
       simp [inputsNone] at hu)⟩

/-- C10: in both usage modes an entry's object-level metadata overrides
the normalizer's base keys: if the entry's metadata binds `source` or
`custom_ocr` to `v`, the emitted page's metadata yields `v` for that key
(in `perFile` mode, for the first entry). -/
theorem entry_metadata_overrides (result : List OcrEntry) (filename : String) (i : Nat)
    (m : Metadata) (k : String) (v : MVal)
    (hm : entryMetaOf (result.getD i (.str "")) = some m)
    (hnd : keysNodup m)
    (hk : k = "source" ∨ k = "custom_ocr")
    (hv : getKey m k = some v)
    (hi : i < result.length) :
    getKey ((extractDocsFromCustomApi (some "perPage") result filename).getD i
        ⟨"", []⟩).metadata k = some v ∧
    (i = 0 →
      getKey ((extractDocsFromCustomApi (some "perFile") result filename).getD 0
          ⟨"", []⟩).metadata k = some v) := by
  have hne : ¬ (some "perPage" : Option String) = some "perFile" := by decide
  have hkloc : ¬ ("loc" = k) := by rcases hk with h | h <;> subst h <;> decide
  constructor
  · rw [perPage_getD _ _ _ hne i hi]
    obtain ⟨item, hitem⟩ : ∃ it, result.getD i (.str "") = it := ⟨_, rfl⟩
    rw [hitem] at hm ⊢
    cases hpdf : isPdfFilename filename with
    | true =>
      simp [perPageDocOf, hm, hpdf, getKey_setKey, hkloc]
      rw [getKey_assign m _ k hnd]
      simp [mergeLookup, hv]
    | false =>
      simp [perPageDocOf, hm, hpdf]
      rw [getKey_assign m _ k hnd]
      simp [mergeLookup, hv]
  · intro hi0
    subst hi0
    cases result with
    | nil => simp at hi
    | cons e tl =>
      have he : entryMetaOf e = some m := by simpa using hm
      simp [extractDocsFromCustomApi, he]
      rw [getKey_assign m _ k hnd]
      simp [mergeLookup, hv]

/-- C10 witness: an entry metadata `{source: "other"}` replaces the base
`source = "doc.pdf"` in both modes. -/
theorem entry_metadata_overrides_witness :
    entryMetaOf (([.obj (some "x") none none (some [("source", .str "other")]) none] :
        List OcrEntry).getD 0 (.str "")) = some [("source", .str "other")] ∧
    getKey [("source", MVal.str "other")] "source" = some (.str "other") ∧
    getKey ((extractDocsFromCustomApi (some "perPage")
        [.obj (some "x") none none (some [("source", .str "other")]) none] "doc.pdf").getD 0
        ⟨"", []⟩).metadata "source" = some (.str "other") ∧
    getKey ((extractDocsFromCustomApi (some "perFile")
        [.obj (some "x") none none (some [("source", .str "other")]) none] "doc.pdf").getD 0
        ⟨"", []⟩).metadata "source" = some (.str "other") := by
  have h := entry_metadata_overrides
    [.obj (some "x") none none (some [("source", .str "other")]) none] "doc.pdf" 0
    [("source", .str "other")] "source" (.str "other") rfl (by decide) (Or.inl rfl) rfl
    (by decide)
  exact ⟨rfl, rfl, h.1, h.2 rfl⟩

end CustomOcr
